import Mathlib

/-!
Shallow embedding of the collaboration-network data pipeline of
`src/components/ArtVisCollaborationNetwork.tsx` (the graph-filtering and
node-weight aggregation module): the data model (`NodeDatum`, `LinkDatum`,
`GraphData`), the per-node weight aggregation performed inside
`fetchCollaborationData` (here `computeNodeWeights` and
`attachNodeWeights`), the threshold filter `filteredData`, and the
nationality color-scale domain `colorScaleDomain`.

Modelling conventions: JavaScript numbers that hold node identifiers and
thresholds are `Int`; edge weights (non-negative collaboration counts) are
`Nat`; optional JSON fields are `Option`; a JS `Map` read with
`get(k) || 0` is a total function `Int → Nat` with default `0`; a JS `Set`
is used only through membership and element enumeration, so it is modelled
by the underlying list (`setDedup` reproduces `Array.from(new Set(xs))`,
which keeps first occurrences in insertion order).
-/

/-- The `NodeDatum` interface: a node of the collaboration graph.
Fields beyond `id` are optional in the JSON input. -/
structure NodeDatum where
  id : Int
  firstname : Option String := none
  lastname : Option String := none
  nationality : Option String := none
  exhibitions_count : Option Nat := none
  weight : Option Nat := none
deriving Repr, DecidableEq

/-- An edge endpoint: the TS type `number | NodeDatum` (`source`/`target`
may be a bare identifier or an embedded node object). -/
inductive NodeRef where
  | ident (i : Int)
  | node (n : NodeDatum)
deriving Repr, DecidableEq

/-- Endpoint normalization used throughout the component:
`typeof x === 'object' ? x.id : x`. -/
def NodeRef.resolve : NodeRef → Int
  | .ident i => i
  | .node n => n.id

/-- The `LinkDatum` interface: a weighted edge; `weight` is optional. -/
structure LinkDatum where
  source : NodeRef
  target : NodeRef
  weight : Option Nat := none
deriving Repr, DecidableEq

/-- The `GraphData` interface: node list plus edge list. -/
structure GraphData where
  nodes : List NodeDatum
  links : List LinkDatum
deriving Repr, DecidableEq

/-- `m.set(k, v)` on the map-as-function model. -/
def mapSet (m : Int → Nat) (k : Int) (v : Nat) : Int → Nat :=
  fun i => if i = k then v else m i

/-- One iteration of the `jsonData.links.forEach` loop in
`fetchCollaborationData` (lines 50–63): add the edge weight
(`link.weight || 0`) to the source accumulator, and to the target
accumulator only when `sourceId !== targetId`.  (The
`typeof sourceId === 'number'` guard is always true after `resolve`,
which yields a number for both endpoint shapes.) -/
def applyLink (m : Int → Nat) (link : LinkDatum) : Int → Nat :=
  let sourceId := link.source.resolve
  let targetId := link.target.resolve
  let weight := link.weight.getD 0
  let m1 := mapSet m sourceId (m sourceId + weight)
  if sourceId ≠ targetId then mapSet m1 targetId (m1 targetId + weight) else m1

/-- The `nodeWeights` map built in `fetchCollaborationData`: fold of
`applyLink` over the edge list, starting from the empty map (reads
default to 0 via `get(id) || 0`). -/
def computeNodeWeights (links : List LinkDatum) : Int → Nat :=
  links.foldl applyLink (fun _ => 0)

/-- Lines 65–69 of `fetchCollaborationData`: re-map every node, setting
both `weight` and `exhibitions_count` to `nodeWeights.get(node.id) || 0`;
the edge list is untouched. -/
def attachNodeWeights (g : GraphData) : GraphData :=
  let nodeWeights := computeNodeWeights g.links
  { g with
      nodes := g.nodes.map fun node =>
        { node with
            weight := some (nodeWeights node.id),
            exhibitions_count := some (nodeWeights node.id) } }

/-- The `filteredData` function (lines 78–105); the spec calls it
`filterGraph(graph, minWeight)`.  Step 1 keeps a link iff
`(link.weight || 0) >= minEdgeWeight && sourceId !== targetId`; step 2
keeps a node iff its id occurs among the endpoints of some kept link
(`connectedNodeIds` is a JS `Set` used only for membership, modelled by
the endpoint list itself). -/
def filteredData (g : GraphData) (minEdgeWeight : Int) : GraphData :=
  let validLinks := g.links.filter fun link =>
    decide ((link.weight.getD 0 : Int) ≥ minEdgeWeight) &&
      (link.source.resolve != link.target.resolve)
  let connectedNodeIds := validLinks.flatMap fun link =>
    [link.source.resolve, link.target.resolve]
  let validNodes := g.nodes.filter fun node => connectedNodeIds.contains node.id
  { nodes := validNodes, links := validLinks }

/-- Lexicographic string comparison by code unit, the ordering used by the
JS default `Array.sort` on strings. -/
def lexLeChars : List Char → List Char → Bool
  | [], _ => true
  | _ :: _, [] => false
  | a :: as, b :: bs =>
    if a.toNat < b.toNat then true
    else if b.toNat < a.toNat then false
    else lexLeChars as bs

/-- The `Array.sort` string ordering as a proposition. -/
def jsStringLe (a b : String) : Prop := lexLeChars a.toList b.toList = true

instance decJsStringLe : DecidableRel jsStringLe :=
  fun a b => instDecidableEqBool (lexLeChars a.toList b.toList) true

/-- The expression `d.nationality || 'Unknown'`: JS `||` also replaces the
empty string (falsy) by `'Unknown'`. -/
def natOrUnknown (d : NodeDatum) : String :=
  match d.nationality with
  | none => "Unknown"
  | some s => if s = "" then "Unknown" else s

/-- `Array.from(new Set(xs))`: drop duplicates, keeping the first
occurrence of each element in insertion order. -/
def setDedup (xs : List String) : List String :=
  xs.foldl (fun acc x => if x ∈ acc then acc else acc ++ [x]) []

/-- The domain of the `colorScale` memo (lines 30–41): distinct
nationalities of `data.nodes` — the FULL loaded node set (the memo
depends on `data` only) — sorted.  JS `Array.sort` on the deduplicated
strings is modelled by `insertionSort` over the code-unit order
`jsStringLe`: on a duplicate-free list every comparison sort yields the
same sorted list. -/
def colorScaleDomain (nodes : List NodeDatum) : List String :=
  List.insertionSort jsStringLe (setDedup (nodes.map natOrUnknown))

/-- The color-scale domain as claim C8 states it (refinement target, from
the spec's words, not from the source): distinct nationalities present in
the CURRENTLY FILTERED node set, sorted. -/
def colorScaleDomainClaim (g : GraphData) (minEdgeWeight : Int) : List String :=
  List.insertionSort jsStringLe
    (setDedup ((filteredData g minEdgeWeight).nodes.map natOrUnknown))

/-- Contribution of a single edge to the accumulator of node id `n`, as
performed by `applyLink`: the weight counts for the source
unconditionally and for the target only when the edge is not a
self-loop. -/
def linkContrib (l : LinkDatum) (n : Int) : Nat :=
  (if l.source.resolve = n then l.weight.getD 0 else 0) +
    (if l.target.resolve = n ∧ l.source.resolve ≠ l.target.resolve then
      l.weight.getD 0 else 0)

/-! Concrete data used by scenarios and witnesses. -/

/-- Scenario A, node 1. -/
def nA1 : NodeDatum := { id := 1 }

/-- Scenario A, node 2. -/
def nA2 : NodeDatum := { id := 2 }

/-- Scenario A, node 3. -/
def nA3 : NodeDatum := { id := 3 }

/-- Scenario A, edge 1–2 of weight 5. -/
def eA12 : LinkDatum := { source := .ident 1, target := .ident 2, weight := some 5 }

/-- Scenario A, edge 2–3 of weight 2. -/
def eA23 : LinkDatum := { source := .ident 2, target := .ident 3, weight := some 2 }

/-- Scenario A, self-loop on node 1 of weight 9. -/
def eA11 : LinkDatum := { source := .ident 1, target := .ident 1, weight := some 9 }

/-- Scenario A graph. -/
def gA : GraphData := { nodes := [nA1, nA2, nA3], links := [eA12, eA23, eA11] }

/-- Scenario C graph: an edge whose target id 99 is not in the node set. -/
def gC : GraphData :=
  { nodes := [{ id := 1 }, { id := 2 }],
    links := [{ source := .ident 1, target := .ident 99, weight := some 5 }] }

/-- A graph with three nationalities, only two of which survive filtering. -/
def gB : GraphData :=
  { nodes := [{ id := 1, nationality := some "AT" },
              { id := 2, nationality := some "BE" },
              { id := 3, nationality := some "CZ" }],
    links := [eA12] }

/-- An edge with an absent `weight` field. -/
def eNone : LinkDatum := { source := .ident 1, target := .ident 2, weight := none }

/-- A graph containing only the weightless edge `eNone`. -/
def gNone : GraphData := { nodes := [{ id := 1 }, { id := 2 }], links := [eNone] }

/-! Helper lemmas shared by several claims. -/

theorem mapSet_self (m : Int → Nat) (k : Int) (v : Nat) : mapSet m k v k = v := by
  simp [mapSet]

theorem mapSet_other (m : Int → Nat) (k : Int) (v : Nat) (i : Int) (h : i ≠ k) :
    mapSet m k v i = m i := by
  simp [mapSet, h]

theorem applyLink_apply (m : Int → Nat) (l : LinkDatum) (n : Int) :
    applyLink m l n = m n + linkContrib l n := by
  have hdef : applyLink m l =
      if l.source.resolve ≠ l.target.resolve then
        mapSet (mapSet m l.source.resolve (m l.source.resolve + l.weight.getD 0))
          l.target.resolve
          (mapSet m l.source.resolve (m l.source.resolve + l.weight.getD 0)
              l.target.resolve
            + l.weight.getD 0)
      else mapSet m l.source.resolve (m l.source.resolve + l.weight.getD 0) := rfl
  rw [hdef]
  simp only [linkContrib]
  by_cases hst : l.source.resolve ≠ l.target.resolve
  · rw [if_pos hst]
    by_cases hnt : n = l.target.resolve
    · subst hnt
      rw [mapSet_self, mapSet_other m _ _ _ (Ne.symm hst),
        if_neg hst, if_pos ⟨rfl, hst⟩]
      omega
    · by_cases hns : n = l.source.resolve
      · subst hns
        rw [mapSet_other _ _ _ _ hnt, mapSet_self, if_pos rfl,
          if_neg (fun h => hst h.1.symm)]
        omega
      · rw [mapSet_other _ _ _ _ hnt, mapSet_other _ _ _ _ hns,
          if_neg (fun h => hns h.symm), if_neg (fun h => hnt h.1.symm)]
        omega
  · rw [if_neg hst]
    have hst' : l.source.resolve = l.target.resolve := not_not.mp hst
    by_cases hns : n = l.source.resolve
    · subst hns
      rw [mapSet_self, if_pos rfl, if_neg (fun h => h.2 hst')]
      omega
    · rw [mapSet_other _ _ _ _ hns, if_neg (fun h => hns h.symm),
        if_neg (fun h => h.2 hst')]
      omega

theorem foldl_applyLink_apply (links : List LinkDatum) (m : Int → Nat) (n : Int) :
    links.foldl applyLink m n = m n + (links.map fun l => linkContrib l n).sum := by
  induction links generalizing m with
  | nil => simp
  | cons l ls ih =>
    simp only [List.foldl_cons, List.map_cons, List.sum_cons, ih, applyLink_apply]
    omega

theorem computeNodeWeights_eq_sum (links : List LinkDatum) (n : Int) :
    computeNodeWeights links n = (links.map fun l => linkContrib l n).sum := by
  simpa using foldl_applyLink_apply links (fun _ => 0) n

theorem filteredData_links_def (g : GraphData) (w : Int) :
    (filteredData g w).links = g.links.filter fun link =>
      decide ((link.weight.getD 0 : Int) ≥ w) &&
        (link.source.resolve != link.target.resolve) := rfl

theorem filteredData_nodes_def (g : GraphData) (w : Int) :
    (filteredData g w).nodes = g.nodes.filter fun node =>
      ((filteredData g w).links.flatMap fun link =>
        [link.source.resolve, link.target.resolve]).contains node.id := rfl

theorem mem_filteredData_links (g : GraphData) (w : Int) (l : LinkDatum) :
    l ∈ (filteredData g w).links ↔
      l ∈ g.links ∧ w ≤ (l.weight.getD 0 : Int) ∧
        l.source.resolve ≠ l.target.resolve := by
  rw [filteredData_links_def, List.mem_filter]
  simp [ge_iff_le]

theorem mem_filteredData_nodes (g : GraphData) (w : Int) (n : NodeDatum) :
    n ∈ (filteredData g w).nodes ↔
      n ∈ g.nodes ∧ ∃ l ∈ (filteredData g w).links,
        n.id = l.source.resolve ∨ n.id = l.target.resolve := by
  rw [filteredData_nodes_def, List.mem_filter]
  simp [List.mem_flatMap]

theorem lexLeChars_total : ∀ as bs, lexLeChars as bs = true ∨ lexLeChars bs as = true
  | [], _ => Or.inl rfl
  | _ :: _, [] => Or.inr rfl
  | a :: as, b :: bs => by
    simp only [lexLeChars]
    rcases Nat.lt_trichotomy a.toNat b.toNat with h | h | h
    · left
      rw [if_pos h]
    · rw [if_neg (by omega), if_neg (by omega), if_neg (by omega), if_neg (by omega)]
      exact lexLeChars_total as bs
    · right
      rw [if_pos h]

theorem lexLeChars_trans :
    ∀ as bs cs, lexLeChars as bs = true → lexLeChars bs cs = true →
      lexLeChars as cs = true
  | [], _, _ => fun _ _ => rfl
  | _ :: _, [], _ => fun h _ => by simp [lexLeChars] at h
  | _ :: _, _ :: _, [] => fun _ h => by simp [lexLeChars] at h
  | a :: as, b :: bs, c :: cs => fun h1 h2 => by
    simp only [lexLeChars] at h1 h2 ⊢
    rcases Nat.lt_trichotomy a.toNat b.toNat with hab | hab | hab
    · rcases Nat.lt_trichotomy b.toNat c.toNat with hbc | hbc | hbc
      · rw [if_pos (by omega)]
      · rw [if_pos (by omega)]
      · rw [if_neg (by omega), if_pos hbc] at h2
        exact absurd h2 (by simp)
    · rw [if_neg (by omega), if_neg (by omega)] at h1
      rcases Nat.lt_trichotomy b.toNat c.toNat with hbc | hbc | hbc
      · rw [if_pos (by omega)]
      · rw [if_neg (by omega), if_neg (by omega)] at h2
        rw [if_neg (by omega), if_neg (by omega)]
        exact lexLeChars_trans as bs cs h1 h2
      · rw [if_neg (by omega), if_pos hbc] at h2
        exact absurd h2 (by simp)
    · rw [if_neg (by omega), if_pos hab] at h1
      exact absurd h1 (by simp)

instance : IsTotal String jsStringLe :=
  ⟨fun a b => lexLeChars_total a.toList b.toList⟩

instance : IsTrans String jsStringLe :=
  ⟨fun a b c => lexLeChars_trans a.toList b.toList c.toList⟩

theorem setDedup_loop_mem (xs : List String) (acc : List String) (y : String) :
    (y ∈ xs.foldl (fun acc x => if x ∈ acc then acc else acc ++ [x]) acc) ↔
      y ∈ acc ∨ y ∈ xs := by
  induction xs generalizing acc with
  | nil => simp
  | cons x xs ih =>
    rw [List.foldl_cons, ih]
    by_cases hx : x ∈ acc
    · rw [if_pos hx]
      simp only [List.mem_cons]
      constructor
      · rintro (h | h)
        · exact Or.inl h
        · exact Or.inr (Or.inr h)
      · rintro (h | h | h)
        · exact Or.inl h
        · exact Or.inl (h ▸ hx)
        · exact Or.inr h
    · rw [if_neg hx]
      simp only [List.mem_append, List.mem_singleton, List.mem_cons]
      tauto

theorem setDedup_loop_nodup (xs : List String) (acc : List String)
    (h : acc.Nodup) :
    (xs.foldl (fun acc x => if x ∈ acc then acc else acc ++ [x]) acc).Nodup := by
  induction xs generalizing acc with
  | nil => simpa
  | cons x xs ih =>
    rw [List.foldl_cons]
    by_cases hx : x ∈ acc
    · rw [if_pos hx]
      exact ih acc h
    · rw [if_neg hx]
      apply ih
      rw [List.nodup_append]
      exact ⟨h, List.nodup_singleton x,
        fun a ha hb => hx ((List.mem_singleton.mp hb) ▸ ha)⟩

theorem setDedup_mem (xs : List String) (y : String) :
    y ∈ setDedup xs ↔ y ∈ xs := by
  rw [setDedup, setDedup_loop_mem]
  simp

theorem setDedup_nodup (xs : List String) : (setDedup xs).Nodup :=
  setDedup_loop_nodup xs [] List.nodup_nil

theorem colorScaleDomain_mem (nodes : List NodeDatum) (v : String) :
    v ∈ colorScaleDomain nodes ↔ ∃ n ∈ nodes, natOrUnknown n = v := by
  rw [colorScaleDomain, (List.perm_insertionSort jsStringLe _).mem_iff,
    setDedup_mem, List.mem_map]

/-! Claim theorems. -/

/-- C1 (counterexample): `filteredData` performs no referential-integrity
check, so on the Scenario-C graph `gC` the retained edge still references
id 99 even though no retained node carries that id — the output DOES
contain a reference to id 99, contrary to the claim. -/
theorem filteredData_retains_edge_with_unknown_node_id :
    (∃ l ∈ (filteredData gC 1).links, NodeRef.resolve l.target = 99) ∧
    ∀ n ∈ (filteredData gC 1).nodes, n.id ≠ 99 := by decide

/-- C1 (amended): if every edge of the input graph references only ids
present in the input node set, then every retained edge's source and
target identifiers are identifiers of retained nodes. -/
theorem filteredData_referential_integrity_of_closed_input (g : GraphData) (w : Int)
    (h : ∀ l ∈ g.links,
      (∃ n ∈ g.nodes, n.id = NodeRef.resolve l.source) ∧
      (∃ n ∈ g.nodes, n.id = NodeRef.resolve l.target)) :
    ∀ l ∈ (filteredData g w).links,
      (∃ n ∈ (filteredData g w).nodes, n.id = NodeRef.resolve l.source) ∧
      (∃ n ∈ (filteredData g w).nodes, n.id = NodeRef.resolve l.target) := by
  intro l hl
  have hg : l ∈ g.links := ((mem_filteredData_links g w l).mp hl).1
  obtain ⟨⟨ns, hns, hids⟩, ⟨nt, hnt, hidt⟩⟩ := h l hg
  constructor
  · exact ⟨ns, (mem_filteredData_nodes g w ns).mpr ⟨hns, l, hl, Or.inl hids⟩, hids⟩
  · exact ⟨nt, (mem_filteredData_nodes g w nt).mpr ⟨hnt, l, hl, Or.inr hidt⟩, hidt⟩

/-- C1 (witness): the amended theorem applied to Scenario A at threshold 3
and its surviving edge. -/
theorem filteredData_referential_integrity_of_closed_input_witness :
    (∃ n ∈ (filteredData gA 3).nodes, n.id = NodeRef.resolve eA12.source) ∧
    (∃ n ∈ (filteredData gA 3).nodes, n.id = NodeRef.resolve eA12.target) :=
  filteredData_referential_integrity_of_closed_input gA 3 (by decide) eA12 (by decide)

/-- C2 (counterexample): on Scenario A the code accumulates the self-loop
weight into node 1's total (5 + 9 = 14), so `computeNodeWeights` maps
node 1 to 14, not to 5 as the claim states. -/
theorem computeNodeWeights_scenarioA_node1_ne_five :
    computeNodeWeights gA.links 1 = 14 ∧ computeNodeWeights gA.links 1 ≠ 5 := by
  decide

/-- C2 (amended): on Scenario A `computeNodeWeights` returns the mapping
{1 ↦ 14, 2 ↦ 7, 3 ↦ 2} (the self-loop's weight 9 is added once to node
1's total), and `filteredData` at threshold 3 returns exactly the edge
{1,2,w:5} and the nodes {1,2}. -/
theorem scenarioA_weights_and_filter :
    computeNodeWeights gA.links 1 = 14 ∧
    computeNodeWeights gA.links 2 = 7 ∧
    computeNodeWeights gA.links 3 = 2 ∧
    filteredData gA 3 = { nodes := [nA1, nA2], links := [eA12] } := by decide

/-- C3: the accumulated weight of any node id is the sum over the edge
list of a per-edge contribution that counts the edge weight for the
source unconditionally and for the target only when source ≠ target; in
particular prepending a self-loop on `n` of weight `w` raises `n`'s total
by exactly `w` — once, never twice. -/
theorem computeNodeWeights_selfLoop_counted_once :
    (∀ (links : List LinkDatum) (n : Int),
      computeNodeWeights links n = (links.map fun l => linkContrib l n).sum) ∧
    ∀ (links : List LinkDatum) (n : Int) (w : Nat),
      computeNodeWeights
          ({ source := .ident n, target := .ident n, weight := some w } :: links) n
        = w + computeNodeWeights links n := by
  refine ⟨computeNodeWeights_eq_sum, fun links n w => ?_⟩
  rw [computeNodeWeights_eq_sum, computeNodeWeights_eq_sum, List.map_cons,
    List.sum_cons]
  simp [linkContrib, NodeRef.resolve]

/-- C4: every link kept by `filteredData` has weight ≥ the threshold and
distinct endpoints; conversely, at threshold 0 every non-self-loop link of
the input is kept, regardless of its weight. -/
theorem filteredData_edges_threshold_and_not_selfLoop :
    (∀ (g : GraphData) (w : Int), ∀ l ∈ (filteredData g w).links,
      (l.weight.getD 0 : Int) ≥ w ∧ NodeRef.resolve l.source ≠ NodeRef.resolve l.target) ∧
    ∀ (g : GraphData), ∀ l ∈ g.links,
      NodeRef.resolve l.source ≠ NodeRef.resolve l.target →
        l ∈ (filteredData g 0).links := by
  constructor
  · intro g w l hl
    have h := (mem_filteredData_links g w l).mp hl
    exact ⟨h.2.1, h.2.2⟩
  · intro g l hl hne
    exact (mem_filteredData_links g 0 l).mpr ⟨hl, Int.natCast_nonneg _, hne⟩

/-- C4 (witness): both directions applied to Scenario A's edge 1–2. -/
theorem filteredData_edges_threshold_and_not_selfLoop_witness :
    ((eA12.weight.getD 0 : Int) ≥ 3 ∧
      NodeRef.resolve eA12.source ≠ NodeRef.resolve eA12.target) ∧
    eA12 ∈ (filteredData gA 0).links :=
  ⟨filteredData_edges_threshold_and_not_selfLoop.1 gA 3 eA12 (by decide),
   filteredData_edges_threshold_and_not_selfLoop.2 gA eA12 (by decide) (by decide)⟩

/-- C5: the filtered node list is drawn from the input node list, and an
input node is retained iff its id is an endpoint of at least one retained
link. -/
theorem filteredData_nodes_mem_iff_incident :
    ∀ (g : GraphData) (w : Int),
      (∀ n ∈ (filteredData g w).nodes, n ∈ g.nodes) ∧
      ∀ n ∈ g.nodes,
        (n ∈ (filteredData g w).nodes ↔
          ∃ l ∈ (filteredData g w).links,
            n.id = NodeRef.resolve l.source ∨ n.id = NodeRef.resolve l.target) := by
  intro g w
  constructor
  · intro n hn
    exact ((mem_filteredData_nodes g w n).mp hn).1
  · intro n hn
    rw [mem_filteredData_nodes]
    exact ⟨fun h => h.2, fun h => ⟨hn, h⟩⟩

/-- C5 (witness): node 1 of Scenario A at threshold 3. -/
theorem filteredData_nodes_mem_iff_incident_witness :
    nA1 ∈ (filteredData gA 3).nodes ↔
      ∃ l ∈ (filteredData gA 3).links,
        nA1.id = NodeRef.resolve l.source ∨ nA1.id = NodeRef.resolve l.target :=
  (filteredData_nodes_mem_iff_incident gA 3).2 nA1 (by decide)

/-- C6: raising the threshold only shrinks the filtered view — for
w1 ≤ w2 both the link list and the node list of `filteredData` at w2 are
(membership) subsets of those at w1. -/
theorem filteredData_antitone (g : GraphData) (w1 w2 : Int) (h : w1 ≤ w2) :
    (filteredData g w2).links ⊆ (filteredData g w1).links ∧
    (filteredData g w2).nodes ⊆ (filteredData g w1).nodes := by
  have hlinks : (filteredData g w2).links ⊆ (filteredData g w1).links := by
    intro l hl
    rw [mem_filteredData_links] at hl ⊢
    exact ⟨hl.1, le_trans h hl.2.1, hl.2.2⟩
  refine ⟨hlinks, ?_⟩
  intro n hn
  rw [mem_filteredData_nodes] at hn ⊢
  obtain ⟨hg, l, hl, he⟩ := hn
  exact ⟨hg, l, hlinks hl, he⟩

/-- C6 (witness): the subsets applied to Scenario A members at thresholds
1 ≤ 2. -/
theorem filteredData_antitone_witness :
    eA12 ∈ (filteredData gA 1).links ∧ nA1 ∈ (filteredData gA 1).nodes :=
  ⟨(filteredData_antitone gA 1 2 (by decide)).1 (by decide),
   (filteredData_antitone gA 1 2 (by decide)).2 (by decide)⟩

/-- C7: filtering twice at the same threshold equals filtering once. -/
theorem filteredData_idempotent (g : GraphData) (w : Int) :
    filteredData (filteredData g w) w = filteredData g w := by
  have hlinks : (filteredData (filteredData g w) w).links = (filteredData g w).links := by
    rw [filteredData_links_def (filteredData g w) w]
    apply List.filter_eq_self.mpr
    intro l hl
    rw [filteredData_links_def g w] at hl
    exact (List.mem_filter.mp hl).2
  have hnodes : (filteredData (filteredData g w) w).nodes = (filteredData g w).nodes := by
    rw [filteredData_nodes_def (filteredData g w) w, hlinks]
    apply List.filter_eq_self.mpr
    intro n hn
    rw [filteredData_nodes_def g w] at hn
    exact (List.mem_filter.mp hn).2
  calc filteredData (filteredData g w) w
      = { nodes := (filteredData (filteredData g w) w).nodes,
          links := (filteredData (filteredData g w) w).links } := rfl
    _ = { nodes := (filteredData g w).nodes, links := (filteredData g w).links } := by
        rw [hnodes, hlinks]
    _ = filteredData g w := rfl

/-- C9: a link whose `weight` field is absent is treated as weight 0; it
contributes nothing to either endpoint's accumulated weight, and it can
only be kept by `filteredData` when the threshold is ≤ 0 — for every
positive threshold it is dropped. -/
theorem absent_weight_treated_as_zero (l : LinkDatum) (hl : l.weight = none) :
    (∀ n, linkContrib l n = 0) ∧
    (∀ (links : List LinkDatum) (n : Int),
      computeNodeWeights (l :: links) n = computeNodeWeights links n) ∧
    (∀ (g : GraphData) (w : Int), l ∈ (filteredData g w).links → w ≤ 0) ∧
    ∀ (g : GraphData) (w : Int), 0 < w → l ∉ (filteredData g w).links := by
  have hzero : ∀ n, linkContrib l n = 0 := by
    intro n
    simp [linkContrib, hl]
  have hmem : ∀ (g : GraphData) (w : Int), l ∈ (filteredData g w).links → w ≤ 0 := by
    intro g w hw
    have h := ((mem_filteredData_links g w l).mp hw).2.1
    rw [hl] at h
    exact_mod_cast h
  refine ⟨hzero, fun links n => ?_, hmem, fun g w hw hmem' => ?_⟩
  · rw [computeNodeWeights_eq_sum, computeNodeWeights_eq_sum, List.map_cons,
      List.sum_cons, hzero, Nat.zero_add]
  · exact absurd (hmem g w hmem') (by omega)

/-- C9 (witness): the weightless edge `eNone` in the graph `gNone`. -/
theorem absent_weight_treated_as_zero_witness :
    linkContrib eNone 1 = 0 ∧
    computeNodeWeights [eNone] 2 = computeNodeWeights [] 2 ∧
    (0 : Int) ≤ 0 ∧
    eNone ∉ (filteredData gNone 1).links :=
  ⟨(absent_weight_treated_as_zero eNone rfl).1 1,
   (absent_weight_treated_as_zero eNone rfl).2.1 [] 2,
   (absent_weight_treated_as_zero eNone rfl).2.2.1 gNone 0 (by decide),
   (absent_weight_treated_as_zero eNone rfl).2.2.2 gNone 1 (by decide)⟩

/-- C10: attaching aggregate weights leaves the link list untouched and
maps the node list pointwise: each output node keeps its id, name parts
and nationality, while both `exhibitions_count` and `weight` are set to
the aggregate computed by `computeNodeWeights` — so `exhibitions_count`
always equals `weight` and any input `exhibitions_count` is discarded. -/
theorem attachNodeWeights_overwrites_exhibitions_count (g : GraphData) :
    (attachNodeWeights g).links = g.links ∧
    List.Forall₂ (fun n n' =>
        n'.id = n.id ∧ n'.firstname = n.firstname ∧ n'.lastname = n.lastname ∧
        n'.nationality = n.nationality ∧
        n'.exhibitions_count = some (computeNodeWeights g.links n.id) ∧
        n'.weight = n'.exhibitions_count)
      g.nodes (attachNodeWeights g).nodes := by
  refine ⟨rfl, ?_⟩
  have hdef : (attachNodeWeights g).nodes = g.nodes.map fun node =>
      { node with
          weight := some (computeNodeWeights g.links node.id),
          exhibitions_count := some (computeNodeWeights g.links node.id) } := rfl
  rw [hdef, List.forall₂_map_right_iff, List.forall₂_same]
  intro n _
  exact ⟨rfl, rfl, rfl, rfl, rfl, rfl⟩

/-- C8 (counterexample): the `colorScale` domain is built from the FULL
loaded node set, not from the filtered one: on `gB` (three nationalities,
only two of which survive threshold 1) it disagrees with the
claim-side construction `colorScaleDomainClaim` over the filtered node
set. -/
theorem colorScaleDomain_ne_filtered_claim :
    colorScaleDomain gB.nodes ≠ colorScaleDomainClaim gB 1 ∧
    colorScaleDomain gB.nodes = ["AT", "BE", "CZ"] ∧
    colorScaleDomainClaim gB 1 = ["AT", "BE"] := by decide

/-- C8 (amended): the categorical-to-color domain enumerates the distinct
nationalities present in the FULL loaded node set — sorted and
duplicate-free — and, being computed from the loaded data only, it does
not depend on the threshold: it covers every nationality appearing in the
filtered node set at every threshold, so a value keeps its color across
threshold changes. -/
theorem colorScaleDomain_full_nodes_sorted_stable (g : GraphData) :
    List.Sorted jsStringLe (colorScaleDomain g.nodes) ∧
    (colorScaleDomain g.nodes).Nodup ∧
    (∀ v, v ∈ colorScaleDomain g.nodes ↔ ∃ n ∈ g.nodes, natOrUnknown n = v) ∧
    ∀ (w : Int), ∀ n ∈ (filteredData g w).nodes,
      natOrUnknown n ∈ colorScaleDomain g.nodes := by
  refine ⟨List.sorted_insertionSort jsStringLe _,
    (List.perm_insertionSort jsStringLe _).nodup_iff.mpr (setDedup_nodup _),
    colorScaleDomain_mem g.nodes, ?_⟩
  intro w n hn
  have hg : n ∈ g.nodes := ((mem_filteredData_nodes g w n).mp hn).1
  exact (colorScaleDomain_mem g.nodes (natOrUnknown n)).mpr ⟨n, hg, rfl⟩

/-- C8 (witness): a filtered node of `gB` whose nationality is covered by
the full-node-set domain. -/
theorem colorScaleDomain_full_nodes_sorted_stable_witness :
    natOrUnknown { id := 1, nationality := some "AT" } ∈ colorScaleDomain gB.nodes :=
  (colorScaleDomain_full_nodes_sorted_stable gB).2.2.2 1
    { id := 1, nationality := some "AT" } (by decide)
